import Mathlib

/-!
Verification of danCryptoMentorApp (src/crypto_mentor_app.py).

The file embeds the algorithmic core of the application in Lean:
the decision engine `mentor_decision`, the mocked indicator source
`mock_indicators`, the price fetch `get_price`, the market-movers fetch
`get_top_movers`, and the peak/trough detection pipeline
(edge-map row sums, the `np.convolve` window-10 smoothing, and the
extremum scan), and proves the specified properties about them.

Machine reals of the pipeline are modelled as rationals; Python strings
are Lean strings with the literal text of the source.
-/

namespace CryptoMentor

/-- Embedding of `mentor_decision(rsi, macd, bollinger)` from
src/crypto_mentor_app.py lines 77-87: an if/elif chain, first match wins,
returning a (signal, rationale) pair of strings. -/
def mentor_decision (rsi : ℤ) (macd bollinger : String) : String × String :=
  if rsi < 30 ∧ macd = "Bullish" then
    ("📈 LONG", "Strong upside signal based on RSI < 30 and bullish MACD.")
  else if rsi > 70 ∧ macd = "Bearish" then
    ("📉 SHORT", "RSI > 70 with bearish MACD suggests downside.")
  else if bollinger = "Price near Upper Band" ∧ macd = "Bearish" then
    ("📉 SHORT", "Near upper Bollinger Band with bearish MACD.")
  else if bollinger = "Price near Lower Band" ∧ macd = "Bullish" then
    ("📈 LONG", "Near lower Bollinger Band with bullish MACD.")
  else
    ("⏳ WAIT", "Conditions not favorable for entry.")

/-- Embedding of `mock_indicators()` from src/crypto_mentor_app.py lines
53-58. The calls to the Python `random` module are modelled by explicit
draws: `random.randint(20, 80)` returns `20 + d % 61` for an arbitrary
draw `d` (uniform over the inclusive range [20, 80]), and
`random.choice` on a two-element list picks by an arbitrary index
modulo 2, in the order the source lists the choices. -/
def mock_indicators (d1 d2 d3 : ℕ) : ℤ × String × String :=
  (20 + (d1 % 61 : ℕ),
   if d2 % 2 = 0 then "Bullish" else "Bearish",
   if d3 % 2 = 0 then "Price near Upper Band" else "Price near Lower Band")

/-- Outcome of the HTTP interaction inside `get_price`
(src/crypto_mentor_app.py lines 30-37), as seen by the `try` block:
either `requests.get` raises (timeout / connection error), or a response
arrives whose body fails to parse as JSON (`response.json()` raises), or
a parsed JSON object arrives, modelled as an association list mapping a
coin id to an association list mapping a currency to a price. A non-2xx
status does not raise in `requests`; it surfaces as a body without the
requested coin key. -/
inductive PriceResponse where
  | netError : PriceResponse
  | badJson : PriceResponse
  | body : List (String × List (String × ℚ)) → PriceResponse

/-- Embedding of `get_price(coin_id)` from src/crypto_mentor_app.py lines
30-37, parameterised by the network outcome. The bare `except:` catches
every exception on the failure paths — a raise from `requests.get`, a
raise from `response.json()`, and the `KeyError` from `data[coin_id]` or
`[...]['usdt']` — and returns `None`; on success the nested price is
returned. -/
def get_price (coin_id : String) (resp : PriceResponse) : Option ℚ :=
  match resp with
  | .netError => none
  | .badJson => none
  | .body data =>
    match data.lookup coin_id with
    | none => none
    | some inner => inner.lookup "usdt"

/-- A coin record of the market-movers response, with the three fields
`get_top_movers` reads (src/crypto_mentor_app.py lines 46-47). -/
structure Coin where
  name : String
  symbol : String
  pct : ℚ
deriving DecidableEq, Repr

/-- The `(coin['name'], coin['symbol'], coin['price_change_percentage_24h'])`
triple built by `get_top_movers`. -/
def coin_view (c : Coin) : String × String × ℚ := (c.name, c.symbol, c.pct)

/-- Embedding of the successful branch of `get_top_movers()` from
src/crypto_mentor_app.py lines 40-50, parameterised by the decoded list
of coin records: gainers are `data[:5]`, losers are `data[-5:]` (the
Python slice `data[-5:]` is the last `min 5 n` elements, the whole list
when `n ≤ 5`). -/
def get_top_movers (data : List Coin) :
    List (String × String × ℚ) × List (String × String × ℚ) :=
  ((data.take 5).map coin_view, (data.drop (data.length - 5)).map coin_view)

/-- The smoothing kernel `np.ones(10)/10` of src/crypto_mentor_app.py line
66, as a function of the kernel index: weight 1/10 on indices 0 to 9 and
zero elsewhere. -/
def kernel10 (j : ℤ) : ℚ := if 0 ≤ j ∧ j < 10 then 1/10 else 0

/-- Offset of the mode same slice into the full convolution: `np.convolve`
swaps its arguments so the shorter one acts as the kernel, and mode same
keeps the `max M N` central entries of the full convolution starting at
entry `(m - 1) / 2`, where `m = min M N`. With the window-10 kernel this
is `(min N 10 - 1) / 2` for a signal of length `N`. -/
def conv_offset (n : ℕ) : ℕ := (min n 10 - 1) / 2

/-- Embedding of `np.convolve(hist, np.ones(10)/10, mode same)` from
src/crypto_mentor_app.py line 66, following the documented numpy
semantics: the result has length `max N 10`, and entry `i` is entry
`i + conv_offset N` of the full convolution `n ↦ Σ_k hist[k] * kernel10 (n - k)`. -/
def np_convolve_same10 (hist : List ℚ) : List ℚ :=
  (List.range (max hist.length 10)).map (fun (i : ℕ) =>
    ((List.range hist.length).map (fun (k : ℕ) =>
      hist.getD k 0 * kernel10 ((i : ℤ) + (conv_offset hist.length : ℤ) - (k : ℤ)))).sum)

/-- Row sums of the edge map (`np.sum(edges, axis=1)`,
src/crypto_mentor_app.py line 65). Canny output pixels are naturals
(0 or 255); the sums are cast to rationals for the later smoothing. -/
def row_sums (edges : List (List ℕ)) : List ℚ :=
  edges.map (fun (row : List ℕ) => (row.map (fun (x : ℕ) => (x : ℚ))).sum)

/-- The smoothed signal profile built inside `detect_peaks_troughs`
(src/crypto_mentor_app.py lines 65-66), starting from the edge map: the
color conversion, blur and Canny stages (lines 62-64) are external
library calls that preserve the image height and produce a grid of
natural pixel values, so the edge map is taken as the input. -/
def signal_profile (edges : List (List ℕ)) : List ℚ :=
  np_convolve_same10 (row_sums edges)

/-- Indices of the profile samples receiving nonzero kernel weight in
entry `i` of `np_convolve_same10` — the in-range part of the 10-wide
window of entry `i` (the kernel weight at offset `j` is nonzero exactly
when `0 ≤ j < 10`). -/
def conv_window (n : ℕ) (i : ℕ) : List ℕ :=
  (List.range n).filter (fun (k : ℕ) =>
    decide (0 ≤ (i : ℤ) + (conv_offset n : ℤ) - (k : ℤ) ∧
            (i : ℤ) + (conv_offset n : ℤ) - (k : ℤ) < 10))

/-- Sum of the in-range profile samples receiving nonzero kernel weight
in entry `i` of `np_convolve_same10` — the samples of the 10-wide window
that actually fall inside the profile. -/
def window_sum (hist : List ℚ) (i : ℕ) : ℚ :=
  ((conv_window hist.length i).map (fun (k : ℕ) => hist.getD k 0)).sum

/-- The in-range part of the window `[i-5, i+4]` of a length `n` signal,
aligned as in `np_convolve_same10` for a signal of length at least 10. -/
def trunc_window (n : ℕ) (i : ℕ) : List ℕ :=
  (List.range n).filter (fun (k : ℕ) =>
    decide ((i : ℤ) - 5 ≤ (k : ℤ) ∧ (k : ℤ) ≤ (i : ℤ) + 4))

/-- Modelled from the spec: the smoothing step as the spec words it — a
centered moving average of window size 10 whose boundary windows are
truncated rather than padded, so each output averages only the in-range
samples of its window (divisor equals the in-range sample count). Used
to compare the spec wording against `np_convolve_same10`. -/
def truncated_avg10 (hist : List ℚ) : List ℚ :=
  (List.range hist.length).map (fun (i : ℕ) =>
    ((trunc_window hist.length i).map (fun (k : ℕ) => hist.getD k 0)).sum /
      ((trunc_window hist.length i).length : ℚ))

/-- Peak test of the scan loop (src/crypto_mentor_app.py line 70):
`hist_smooth[i-1] < hist_smooth[i] > hist_smooth[i+1]`. -/
def is_peak (hs : List ℚ) (i : ℕ) : Bool :=
  decide (hs.getD (i-1) 0 < hs.getD i 0 ∧ hs.getD (i+1) 0 < hs.getD i 0)

/-- Trough test of the scan loop (src/crypto_mentor_app.py line 72):
`hist_smooth[i-1] > hist_smooth[i] < hist_smooth[i+1]`. -/
def is_trough (hs : List ℚ) (i : ℕ) : Bool :=
  decide (hs.getD i 0 < hs.getD (i-1) 0 ∧ hs.getD i 0 < hs.getD (i+1) 0)

/-- Embedding of the scan loop of `detect_peaks_troughs`
(src/crypto_mentor_app.py lines 67-74) on a profile `hs`: the index `i`
runs over `range(1, len(hs)-1)`, `i` is appended to the peaks when the
peak test holds and — elif — to the troughs when the trough test holds.
The elif is encoded by conjoining the negated peak test onto the trough
filter. -/
def detect_peaks_troughs (hs : List ℚ) : List ℕ × List ℕ :=
  ((List.range' 1 (hs.length - 2)).filter (fun i => is_peak hs i),
   (List.range' 1 (hs.length - 2)).filter (fun i => !is_peak hs i && is_trough hs i))

/-- The full image pipeline of `detect_peaks_troughs` from the edge map
on: profile extraction followed by the extremum scan. -/
def detect_peaks_troughs_pipeline (edges : List (List ℕ)) : List ℕ × List ℕ :=
  detect_peaks_troughs (signal_profile edges)

/-- Strictness properties of the extremum scan on a profile `hs`: every
reported peak and trough is a strict single-sample local extremum away
from the boundary, an index with an equal neighbour on either side is
never reported, and strictly increasing, strictly decreasing or constant
profiles report nothing. -/
def ExtremaStrict (hs : List ℚ) : Prop :=
  (∀ i ∈ (detect_peaks_troughs hs).1,
     hs.getD (i-1) 0 < hs.getD i 0 ∧ hs.getD (i+1) 0 < hs.getD i 0 ∧
     i ≠ 0 ∧ i ≠ hs.length - 1) ∧
  (∀ i ∈ (detect_peaks_troughs hs).2,
     hs.getD i 0 < hs.getD (i-1) 0 ∧ hs.getD i 0 < hs.getD (i+1) 0 ∧
     i ≠ 0 ∧ i ≠ hs.length - 1) ∧
  (∀ i, (hs.getD (i-1) 0 = hs.getD i 0 ∨ hs.getD i 0 = hs.getD (i+1) 0) →
     i ∉ (detect_peaks_troughs hs).1 ∧ i ∉ (detect_peaks_troughs hs).2) ∧
  ((∀ j, j + 1 < hs.length → hs.getD j 0 < hs.getD (j+1) 0) →
     (detect_peaks_troughs hs).1 = [] ∧ (detect_peaks_troughs hs).2 = []) ∧
  ((∀ j, j + 1 < hs.length → hs.getD (j+1) 0 < hs.getD j 0) →
     (detect_peaks_troughs hs).1 = [] ∧ (detect_peaks_troughs hs).2 = []) ∧
  ((∀ j, j + 1 < hs.length → hs.getD j 0 = hs.getD (j+1) 0) →
     (detect_peaks_troughs hs).1 = [] ∧ (detect_peaks_troughs hs).2 = [])

/-- Ordering and disjointness properties of the extremum scan on a
profile `hs`: peaks and troughs are strictly increasing index sequences,
no index is reported in both, and every reported index lies within
`[1, H-2]` for `H` the profile length. -/
def ExtremaOrder (hs : List ℚ) : Prop :=
  (detect_peaks_troughs hs).1.Pairwise (· < ·) ∧
  (detect_peaks_troughs hs).2.Pairwise (· < ·) ∧
  (∀ i, i ∈ (detect_peaks_troughs hs).1 → i ∉ (detect_peaks_troughs hs).2) ∧
  (∀ i, (i ∈ (detect_peaks_troughs hs).1 ∨ i ∈ (detect_peaks_troughs hs).2) →
     1 ≤ i ∧ i ≤ hs.length - 2)

/-- C1: evaluated on the five literal indicator states of the scenario
table in the spec, `mentor_decision` returns Long, Short, Short, Long,
Wait respectively (signal component of the returned pair). -/
theorem mentor_decision_scenario_table :
    (mentor_decision 25 "Bullish" "Price near Lower Band").1 = "📈 LONG" ∧
    (mentor_decision 75 "Bearish" "Price near Upper Band").1 = "📉 SHORT" ∧
    (mentor_decision 50 "Bearish" "Price near Upper Band").1 = "📉 SHORT" ∧
    (mentor_decision 50 "Bullish" "Price near Lower Band").1 = "📈 LONG" ∧
    (mentor_decision 50 "Bullish" "Price near Upper Band").1 = "⏳ WAIT" := by
  refine ⟨?_, ?_, ?_, ?_, ?_⟩ <;> decide

/-- C6: `mentor_decision` is total and deterministic: for every input it
returns exactly one pair whose signal component is one of the three
signal strings, and two calls with identical inputs return identical
(signal, rationale) pairs. -/
theorem mentor_decision_total_deterministic (rsi : ℤ) (macd bollinger : String) :
    ((mentor_decision rsi macd bollinger).1 = "📈 LONG" ∨
     (mentor_decision rsi macd bollinger).1 = "📉 SHORT" ∨
     (mentor_decision rsi macd bollinger).1 = "⏳ WAIT") ∧
    mentor_decision rsi macd bollinger = mentor_decision rsi macd bollinger := by
  refine ⟨?_, rfl⟩
  unfold mentor_decision
  split_ifs <;> simp

/-- C9: the direction of the recommendation always agrees with MACD:
`mentor_decision` returns the Long signal only when MACD is "Bullish",
the Short signal only when MACD is "Bearish", and in every other case
the signal is Wait. -/
theorem mentor_decision_direction_agrees_macd (rsi : ℤ) (macd bollinger : String) :
    ((mentor_decision rsi macd bollinger).1 = "📈 LONG" → macd = "Bullish") ∧
    ((mentor_decision rsi macd bollinger).1 = "📉 SHORT" → macd = "Bearish") ∧
    ((mentor_decision rsi macd bollinger).1 ≠ "📈 LONG" →
     (mentor_decision rsi macd bollinger).1 ≠ "📉 SHORT" →
     (mentor_decision rsi macd bollinger).1 = "⏳ WAIT") := by
  unfold mentor_decision
  split_ifs with h1 h2 h3 h4 <;>
    simp_all

/-- Witness for C9 at concrete inputs: the Long branch at
(25, Bullish, near lower band) certifies MACD is Bullish there. -/
theorem mentor_decision_direction_agrees_macd_witness :
    ("Bullish" : String) = "Bullish" :=
  (mentor_decision_direction_agrees_macd 25 "Bullish" "Price near Lower Band").1
    (by decide)

/-- Characterisation of membership in the peaks list of the scan. -/
theorem mem_peaks_iff (hs : List ℚ) (i : ℕ) :
    i ∈ (detect_peaks_troughs hs).1 ↔
      (1 ≤ i ∧ i < 1 + (hs.length - 2)) ∧
      (hs.getD (i-1) 0 < hs.getD i 0 ∧ hs.getD (i+1) 0 < hs.getD i 0) := by
  simp only [detect_peaks_troughs, List.mem_filter, List.mem_range'_1, is_peak,
    decide_eq_true_eq]

/-- Characterisation of membership in the troughs list of the scan. -/
theorem mem_troughs_iff (hs : List ℚ) (i : ℕ) :
    i ∈ (detect_peaks_troughs hs).2 ↔
      (1 ≤ i ∧ i < 1 + (hs.length - 2)) ∧
      ¬(hs.getD (i-1) 0 < hs.getD i 0 ∧ hs.getD (i+1) 0 < hs.getD i 0) ∧
      (hs.getD i 0 < hs.getD (i-1) 0 ∧ hs.getD i 0 < hs.getD (i+1) 0) := by
  simp only [detect_peaks_troughs, List.mem_filter, List.mem_range'_1, is_peak, is_trough,
    Bool.and_eq_true, Bool.not_eq_true', decide_eq_true_eq, decide_eq_false_iff_not,
    and_assoc]

/-- C2: on every profile of length at least 3, reported peaks and troughs
are strict single-sample local extrema away from the boundary, equal
neighbours are never reported, and monotonic or constant profiles report
nothing. -/
theorem detect_extrema_strict (hs : List ℚ) (h : 3 ≤ hs.length) : ExtremaStrict hs := by
  refine ⟨?_, ?_, ?_, ?_, ?_, ?_⟩
  · intro i hi
    rw [mem_peaks_iff] at hi
    exact ⟨hi.2.1, hi.2.2, by omega, by omega⟩
  · intro i hi
    rw [mem_troughs_iff] at hi
    exact ⟨hi.2.2.1, hi.2.2.2, by omega, by omega⟩
  · intro i hflat
    refine ⟨fun hi => ?_, fun hi => ?_⟩
    · rw [mem_peaks_iff] at hi
      rcases hflat with he | he <;> [linarith [hi.2.1]; linarith [hi.2.2]]
    · rw [mem_troughs_iff] at hi
      rcases hflat with he | he <;> [linarith [hi.2.2.1]; linarith [hi.2.2.2]]
  · intro hmono
    constructor
    · rw [List.eq_nil_iff_forall_not_mem]
      intro i hi
      rw [mem_peaks_iff] at hi
      have := hmono i (by omega)
      linarith [hi.2.2]
    · rw [List.eq_nil_iff_forall_not_mem]
      intro i hi
      rw [mem_troughs_iff] at hi
      have h1 := hmono (i-1) (by omega)
      have h2 : i - 1 + 1 = i := by omega
      rw [h2] at h1
      linarith [hi.2.2.1]
  · intro hmono
    constructor
    · rw [List.eq_nil_iff_forall_not_mem]
      intro i hi
      rw [mem_peaks_iff] at hi
      have h1 := hmono (i-1) (by omega)
      have h2 : i - 1 + 1 = i := by omega
      rw [h2] at h1
      linarith [hi.2.1]
    · rw [List.eq_nil_iff_forall_not_mem]
      intro i hi
      rw [mem_troughs_iff] at hi
      have := hmono i (by omega)
      linarith [hi.2.2.2]
  · intro hconst
    constructor
    · rw [List.eq_nil_iff_forall_not_mem]
      intro i hi
      rw [mem_peaks_iff] at hi
      have := hconst i (by omega)
      linarith [hi.2.2]
    · rw [List.eq_nil_iff_forall_not_mem]
      intro i hi
      rw [mem_troughs_iff] at hi
      have := hconst i (by omega)
      linarith [hi.2.2.2]

/-- Witness for C2 at the concrete profile [0, 1, 0]. -/
theorem detect_extrema_strict_witness :
    3 ≤ ([0, 1, 0] : List ℚ).length ∧ ExtremaStrict [0, 1, 0] :=
  ⟨by decide, detect_extrema_strict [0, 1, 0] (by decide)⟩

/-- C3: on every profile, peaks and troughs are strictly increasing,
mutually disjoint, and confined to `[1, H-2]`. -/
theorem detect_extrema_order (hs : List ℚ) : ExtremaOrder hs := by
  refine ⟨?_, ?_, ?_, ?_⟩
  · exact (List.pairwise_lt_range' 1 (hs.length - 2)).filter _
  · exact (List.pairwise_lt_range' 1 (hs.length - 2)).filter _
  · intro i hip hit
    rw [mem_peaks_iff] at hip
    rw [mem_troughs_iff] at hit
    exact hit.2.1 hip.2
  · intro i hi
    rcases hi with hip | hit
    · rw [mem_peaks_iff] at hip
      omega
    · rw [mem_troughs_iff] at hit
      omega

/-- Witness for C3 at the concrete profile [0, 1, 0]. -/
theorem detect_extrema_order_witness : ExtremaOrder [0, 1, 0] :=
  detect_extrema_order [0, 1, 0]

/-- A default-0 list read of a list of nonnegative rationals is
nonnegative. -/
theorem getD_nonneg (l : List ℚ) (k : ℕ) (h : ∀ x ∈ l, 0 ≤ x) : 0 ≤ l.getD k 0 := by
  induction l generalizing k with
  | nil => simp [List.getD]
  | cons a t ih =>
    cases k with
    | zero =>
      rw [List.getD_cons_zero]
      exact h a (List.mem_cons_self a t)
    | succ k =>
      rw [List.getD_cons_succ]
      exact ih k (fun x hx => h x (List.mem_cons_of_mem a hx))

/-- Every row sum of a natural-valued edge map is nonnegative. -/
theorem row_sums_nonneg (edges : List (List ℕ)) : ∀ x ∈ row_sums edges, 0 ≤ x := by
  intro x hx
  unfold row_sums at hx
  obtain ⟨row, _, rfl⟩ := List.mem_map.mp hx
  refine List.sum_nonneg ?_
  intro y hy
  obtain ⟨v, _, rfl⟩ := List.mem_map.mp hy
  exact Nat.cast_nonneg v

/-- The smoothing preserves nonnegativity of the signal. -/
theorem np_convolve_same10_nonneg (hist : List ℚ) (h : ∀ x ∈ hist, 0 ≤ x) :
    ∀ y ∈ np_convolve_same10 hist, 0 ≤ y := by
  intro y hy
  unfold np_convolve_same10 at hy
  obtain ⟨i, _, rfl⟩ := List.mem_map.mp hy
  refine List.sum_nonneg ?_
  intro z hz
  obtain ⟨k, _, rfl⟩ := List.mem_map.mp hz
  refine mul_nonneg (getD_nonneg hist k h) ?_
  unfold kernel10
  split_ifs <;> norm_num

/-- C4 (amended): for every edge map of height `H` with `1 ≤ H ≤ 1000`,
the profile produced by the signal extractor has length `max H 10` —
equal to `H` exactly when `H ≥ 10`, because `np.convolve` in mode same
returns the longer of the two operand lengths — and every element of
the profile is nonnegative. -/
theorem signal_profile_length_nonneg (edges : List (List ℕ)) (H : ℕ)
    (hH : edges.length = H) (h1 : 1 ≤ H) (h2 : H ≤ 1000) :
    (signal_profile edges).length = max H 10 ∧
    (10 ≤ H → (signal_profile edges).length = H) ∧
    (∀ x ∈ signal_profile edges, 0 ≤ x) := by
  have hlen : (row_sums edges).length = H := by
    simp [row_sums, hH]
  refine ⟨?_, fun h10 => ?_, ?_⟩
  · simp [signal_profile, np_convolve_same10, hlen]
  · simp only [signal_profile, np_convolve_same10, List.length_map, List.length_range, hlen]
    omega
  · exact np_convolve_same10_nonneg (row_sums edges) (row_sums_nonneg edges)

/-- Witness for C4 at a concrete edge map of height 12. -/
theorem signal_profile_length_nonneg_witness :
    (List.replicate 12 ([0, 255] : List ℕ)).length = 12 ∧ 1 ≤ 12 ∧ 12 ≤ 1000 ∧
    ((signal_profile (List.replicate 12 [0, 255])).length = max 12 10 ∧
     (10 ≤ 12 → (signal_profile (List.replicate 12 [0, 255])).length = 12) ∧
     (∀ x ∈ signal_profile (List.replicate 12 [0, 255]), 0 ≤ x)) :=
  ⟨by decide, by decide, by decide,
   signal_profile_length_nonneg (List.replicate 12 [0, 255]) 12 (by decide) (by decide)
     (by decide)⟩

/-- C4 counterexample: an edge map of height 3 (inside the claimed range
`1 ≤ H ≤ 1000`) yields a profile of length 10, not 3 — `np.convolve`
in mode same returns the kernel length when the signal is shorter than
the window. -/
theorem signal_profile_length_counterexample :
    ([[255], [0], [255]] : List (List ℕ)).length = 3 ∧
    (signal_profile [[255], [0], [255]]).length = 10 ∧
    ¬(signal_profile [[255], [0], [255]]).length = 3 := by
  refine ⟨rfl, ?_, ?_⟩ <;> decide

/-- Dropping the zero terms of a mapped sum: summing over the filtered
index list is the same when the function vanishes off the filter. -/
theorem sum_map_filter_eq (l : List ℕ) (p : ℕ → Bool) (f : ℕ → ℚ)
    (h : ∀ x ∈ l, p x = false → f x = 0) :
    (l.map f).sum = ((l.filter p).map f).sum := by
  induction l with
  | nil => rfl
  | cons a t ih =>
    have ht : ∀ x ∈ t, p x = false → f x = 0 :=
      fun x hx => h x (List.mem_cons_of_mem a hx)
    cases hp : p a with
    | true => simp [List.filter_cons, hp, ih ht]
    | false =>
      have ha : f a = 0 := h a (List.mem_cons_self a t) hp
      simp [List.filter_cons, hp, ha, ih ht]

/-- A common divisor moves out of a mapped sum of list reads. -/
theorem sum_map_getD_div (hist : List ℚ) (l : List ℕ) (c : ℚ) :
    (l.map (fun (k : ℕ) => hist.getD k 0 / c)).sum =
      (l.map (fun (k : ℕ) => hist.getD k 0)).sum / c := by
  induction l with
  | nil => simp
  | cons a t ih => simp only [List.map_cons, List.sum_cons, ih, add_div]

/-- Every entry of the mode same convolution is the sum of the in-range
samples of its 10-wide window divided by the full window size 10: the
out-of-range positions contribute zero (zero padding) and the divisor is
never reduced to the in-range sample count. -/
theorem conv_entry_eq (hist : List ℚ) (i : ℕ)
    (h : i < (np_convolve_same10 hist).length) :
    (np_convolve_same10 hist).getD i 0 = window_sum hist i / 10 := by
  rw [List.getD_eq_getElem _ _ h]
  simp only [np_convolve_same10, List.getElem_map, List.getElem_range]
  have hfilter : ((List.range hist.length).map (fun (k : ℕ) =>
      hist.getD k 0 * kernel10 ((i : ℤ) + (conv_offset hist.length : ℤ) - (k : ℤ)))).sum =
      (((List.range hist.length).filter (fun (k : ℕ) =>
        decide (0 ≤ (i : ℤ) + (conv_offset hist.length : ℤ) - (k : ℤ) ∧
                (i : ℤ) + (conv_offset hist.length : ℤ) - (k : ℤ) < 10))).map
        (fun (k : ℕ) =>
        hist.getD k 0 * kernel10 ((i : ℤ) + (conv_offset hist.length : ℤ) - (k : ℤ)))).sum := by
    apply sum_map_filter_eq
    intro k _ hfalse
    have hprop : ¬(0 ≤ (i : ℤ) + (conv_offset hist.length : ℤ) - (k : ℤ) ∧
        (i : ℤ) + (conv_offset hist.length : ℤ) - (k : ℤ) < 10) := by
      simpa using hfalse
    unfold kernel10
    rw [if_neg hprop, mul_zero]
  have hcongr : (((List.range hist.length).filter (fun (k : ℕ) =>
      decide (0 ≤ (i : ℤ) + (conv_offset hist.length : ℤ) - (k : ℤ) ∧
              (i : ℤ) + (conv_offset hist.length : ℤ) - (k : ℤ) < 10))).map
      (fun (k : ℕ) =>
        hist.getD k 0 * kernel10 ((i : ℤ) + (conv_offset hist.length : ℤ) - (k : ℤ)))) =
      (((List.range hist.length).filter (fun (k : ℕ) =>
      decide (0 ≤ (i : ℤ) + (conv_offset hist.length : ℤ) - (k : ℤ) ∧
              (i : ℤ) + (conv_offset hist.length : ℤ) - (k : ℤ) < 10))).map
      (fun (k : ℕ) => hist.getD k 0 / 10)) := by
    apply List.map_congr_left
    intro k hk
    have hprop : 0 ≤ (i : ℤ) + (conv_offset hist.length : ℤ) - (k : ℤ) ∧
        (i : ℤ) + (conv_offset hist.length : ℤ) - (k : ℤ) < 10 := by
      have h2 := (List.mem_filter.mp hk).2
      simpa using h2
    unfold kernel10
    rw [if_pos hprop]
    ring
  rw [hfilter, hcongr, sum_map_getD_div]
  unfold window_sum conv_window
  rfl

/-- C5 (amended): the smoothing of step 5 is `np.convolve` with kernel
`np.ones(10)/10` in mode same, whose boundary windows are zero-padded
rather than truncated: every output entry — boundary entries included —
is the sum of the in-range samples of its 10-wide window divided by the
full window size 10, never by the in-range sample count. -/
theorem np_convolve_same10_zero_padded (hist : List ℚ) (i : ℕ)
    (h : i < (np_convolve_same10 hist).length) :
    (np_convolve_same10 hist).getD i 0 = window_sum hist i / 10 :=
  conv_entry_eq hist i h

/-- Witness for C5 at the constant profile of ten 10s, entry 0. -/
theorem np_convolve_same10_zero_padded_witness :
    0 < (np_convolve_same10 (List.replicate 10 (10 : ℚ))).length ∧
    (np_convolve_same10 (List.replicate 10 (10 : ℚ))).getD 0 0 =
      window_sum (List.replicate 10 (10 : ℚ)) 0 / 10 :=
  ⟨by decide, np_convolve_same10_zero_padded (List.replicate 10 (10 : ℚ)) 0 (by decide)⟩

/-- C5 counterexample: on the constant profile of ten 10s the code
smooths entry 0 to 5 — the zero-padded window sum divided by the full
window size 10 — while the truncated in-range average the claim
describes equals 10 there. -/
theorem smoothing_not_truncated_counterexample :
    (np_convolve_same10 (List.replicate 10 (10 : ℚ))).getD 0 0 = 5 ∧
    (truncated_avg10 (List.replicate 10 (10 : ℚ))).getD 0 0 = 10 ∧
    (np_convolve_same10 (List.replicate 10 (10 : ℚ))).getD 0 0 ≠
      (truncated_avg10 (List.replicate 10 (10 : ℚ))).getD 0 0 := by
  have hrep : List.replicate 10 (10 : ℚ) = [10, 10, 10, 10, 10, 10, 10, 10, 10, 10] := rfl
  have hconv : (np_convolve_same10 (List.replicate 10 (10 : ℚ))).getD 0 0 = 5 := by
    rw [conv_entry_eq (List.replicate 10 (10 : ℚ)) 0 (by decide)]
    have hw : conv_window (List.replicate 10 (10 : ℚ)).length 0 = [0, 1, 2, 3, 4] := by
      decide
    unfold window_sum
    rw [hw, hrep]
    norm_num [List.getD_cons_zero, List.getD_cons_succ]
  have htr : (truncated_avg10 (List.replicate 10 (10 : ℚ))).getD 0 0 = 10 := by
    have hlen : (0 : ℕ) < (truncated_avg10 (List.replicate 10 (10 : ℚ))).length := by
      decide
    rw [List.getD_eq_getElem _ _ hlen]
    simp only [truncated_avg10, List.getElem_map, List.getElem_range]
    have hw : trunc_window (List.replicate 10 (10 : ℚ)).length 0 = [0, 1, 2, 3, 4] := by
      decide
    rw [hw, hrep]
    norm_num [List.getD_cons_zero, List.getD_cons_succ]
  refine ⟨hconv, htr, ?_⟩
  rw [hconv, htr]
  norm_num

/-- C7: every failure mode of the price fetch — the network raising,
a malformed JSON body, a body without the coin key (as after a non-2xx
status), or a missing nested price field — returns the sentinel `none`,
and a successful response returns the nested price for the requested
identifier. -/
theorem get_price_error_handling (coin : String) (resp : PriceResponse) :
    (resp = PriceResponse.netError → get_price coin resp = none) ∧
    (resp = PriceResponse.badJson → get_price coin resp = none) ∧
    (∀ data, resp = PriceResponse.body data → data.lookup coin = none →
       get_price coin resp = none) ∧
    (∀ data inner, resp = PriceResponse.body data → data.lookup coin = some inner →
       inner.lookup "usdt" = none → get_price coin resp = none) ∧
    (∀ data inner p, resp = PriceResponse.body data → data.lookup coin = some inner →
       inner.lookup "usdt" = some p → get_price coin resp = some p) := by
  refine ⟨?_, ?_, ?_, ?_, ?_⟩
  · rintro rfl; rfl
  · rintro rfl; rfl
  · rintro data rfl hl
    simp [get_price, hl]
  · rintro data inner rfl hl hu
    simp [get_price, hl, hu]
  · rintro data inner p rfl hl hu
    simp [get_price, hl, hu]

/-- Witness for C7: a network error yields `none`, and a well-formed
body yields the nested price. -/
theorem get_price_error_handling_witness :
    get_price "bitcoin" PriceResponse.netError = none ∧
    get_price "bitcoin" (PriceResponse.body [("bitcoin", [("usdt", 50000)])]) =
      some 50000 :=
  ⟨(get_price_error_handling "bitcoin" PriceResponse.netError).1 rfl,
   (get_price_error_handling "bitcoin"
      (PriceResponse.body [("bitcoin", [("usdt", 50000)])])).2.2.2.2
      [("bitcoin", [("usdt", 50000)])] [("usdt", 50000)] 50000 rfl rfl rfl⟩

/-- C8: `mock_indicators` only produces an RSI in `[20, 80]`, a MACD in
exactly {Bullish, Bearish} and a Bollinger value in exactly the two band
positions; hence the RSI < 30 branch of the decision engine is reachable
from it only with RSI in `[20, 29]` and the RSI > 70 branch only with
RSI in `[71, 80]`. -/
theorem mock_indicators_ranges (d1 d2 d3 : ℕ) :
    20 ≤ (mock_indicators d1 d2 d3).1 ∧ (mock_indicators d1 d2 d3).1 ≤ 80 ∧
    ((mock_indicators d1 d2 d3).2.1 = "Bullish" ∨
     (mock_indicators d1 d2 d3).2.1 = "Bearish") ∧
    ((mock_indicators d1 d2 d3).2.2 = "Price near Upper Band" ∨
     (mock_indicators d1 d2 d3).2.2 = "Price near Lower Band") ∧
    ((mock_indicators d1 d2 d3).1 < 30 →
       20 ≤ (mock_indicators d1 d2 d3).1 ∧ (mock_indicators d1 d2 d3).1 ≤ 29) ∧
    ((mock_indicators d1 d2 d3).1 > 70 →
       71 ≤ (mock_indicators d1 d2 d3).1 ∧ (mock_indicators d1 d2 d3).1 ≤ 80) := by
  dsimp only [mock_indicators]
  refine ⟨by omega, by omega, ?_, ?_, by omega, by omega⟩
  · by_cases h : d2 % 2 = 0 <;> simp [h]
  · by_cases h : d3 % 2 = 0 <;> simp [h]

/-- Witness for C8 at draws (9, 0, 1): RSI is 29, inside the reachable
part of the RSI < 30 branch. -/
theorem mock_indicators_ranges_witness :
    (mock_indicators 9 0 1).1 = 29 ∧
    (20 ≤ (mock_indicators 9 0 1).1 ∧ (mock_indicators 9 0 1).1 ≤ 29) :=
  ⟨by decide, (mock_indicators_ranges 9 0 1).2.2.2.2.1 (by decide)⟩

/-- C10: when the movers list holds between 1 and 9 records the gainers
(first five) and losers (last five) overlap; with at least 10 pairwise
distinct records the two lists are disjoint. -/
theorem get_top_movers_overlap (data : List Coin) :
    (1 ≤ data.length → data.length ≤ 9 →
      ∃ t, t ∈ (get_top_movers data).1 ∧ t ∈ (get_top_movers data).2) ∧
    (10 ≤ data.length → (data.map coin_view).Nodup →
      ∀ t ∈ (get_top_movers data).1, t ∉ (get_top_movers data).2) := by
  constructor
  · intro h1 h9
    have hj : data.length - 5 < data.length := by omega
    refine ⟨coin_view data[data.length - 5], ?_, ?_⟩
    · apply List.mem_map_of_mem
      have hjt : data.length - 5 < (data.take 5).length := by
        rw [List.length_take]
        omega
      refine List.mem_iff_getElem.mpr ⟨data.length - 5, hjt, ?_⟩
      exact List.getElem_take data
    · apply List.mem_map_of_mem
      have hd : 0 < (data.drop (data.length - 5)).length := by
        rw [List.length_drop]
        omega
      refine List.mem_iff_getElem.mpr ⟨0, hd, ?_⟩
      exact List.getElem_drop data
  · intro h10 hnd t ht hmem
    have hg : (get_top_movers data).1 = (data.map coin_view).take 5 := by
      simp [get_top_movers, List.map_take]
    have hl : (get_top_movers data).2 =
        (data.map coin_view).drop (data.length - 5) := by
      simp [get_top_movers, List.map_drop]
    rw [hg] at ht
    rw [hl] at hmem
    have hsub : (data.map coin_view).drop (data.length - 5) ⊆
        (data.map coin_view).drop 5 := by
      have hdd : (data.map coin_view).drop (data.length - 5) =
          ((data.map coin_view).drop 5).drop (data.length - 10) := by
        rw [List.drop_drop]
        congr 1
        omega
      rw [hdd]
      exact List.drop_subset _ _
    have hnd2 : ((data.map coin_view).take 5 ++ (data.map coin_view).drop 5).Nodup := by
      rw [List.take_append_drop]
      exact hnd
    exact (List.nodup_append.mp hnd2).2.2 ht (hsub hmem)

/-- Witness for C10 at a one-record list: the single record is both a
top gainer and a top loser. -/
theorem get_top_movers_overlap_witness :
    1 ≤ ([⟨"Bitcoin", "btc", 5⟩] : List Coin).length ∧
    ([⟨"Bitcoin", "btc", 5⟩] : List Coin).length ≤ 9 ∧
    ∃ t, t ∈ (get_top_movers [⟨"Bitcoin", "btc", 5⟩]).1 ∧
         t ∈ (get_top_movers [⟨"Bitcoin", "btc", 5⟩]).2 :=
  ⟨by decide, by decide,
   (get_top_movers_overlap [⟨"Bitcoin", "btc", 5⟩]).1 (by decide) (by decide)⟩

end CryptoMentor
